import Mathlib

/-!
Verification of the hit-and-run polytope walker of
`src/trajectories/iris_in_configuration_space.ipynb` (function `AnimateIris`).

The walker starts at the Chebyshev center of the region, repeatedly draws a random
direction, solves a linear program over the inequalities of the region `A·q ≤ b`
(the `MathematicalProgram.AddLinearCost` of Drake adds a cost that `Solve`
minimizes, and the loop sets the coefficients of that cost to the drawn
direction),
publishes the 21 interpolated configurations
`t * q_next + (1 - t) * q` for `t ∈ np.append(np.arange(0, 1, .05), 1)`,
updates `q := q_next`, and exits after one iteration unless running as a
notebook.  Vector arithmetic is embedded over `ℚ` on `List ℚ`; the external
solver is a parameter whose contract (feasibility / optimality of a reported
solution) enters as a hypothesis.
-/

/-- Convex region `A · q ≤ b` with its precomputed Chebyshev center, as read
by the loop through `region.A()`, `region.b()` and `region.ChebyshevCenter()`. -/
structure ConvexRegion where
  A : List (List ℚ)
  b : List ℚ
  interior : List ℚ
deriving DecidableEq

/-- Walker state: the current configuration `q` of `AnimateIris`. -/
structure WalkerState where
  q_current : List ℚ
deriving DecidableEq

/-- Dot product of two coefficient vectors (componentwise products, summed). -/
def dot (xs ys : List ℚ) : ℚ := (List.zipWith (fun a b => a * b) xs ys).sum

/-- The point `q` satisfies every inequality `row · q ≤ bound` of the region. -/
def feasible (R : ConvexRegion) (q : List ℚ) : Prop :=
  ∀ p ∈ R.A.zip R.b, dot p.1 q ≤ p.2

instance (R : ConvexRegion) (q : List ℚ) : Decidable (feasible R q) := by
  unfold feasible
  infer_instance

/-- What the per-step linear program computes: the `MathematicalProgram` of Drake
minimizes its cost, the constraint is `A·q ≤ b`, and the loop updates the
linear-cost coefficients to the drawn `direction`; so an optimum is a feasible
point minimizing `direction · q`. -/
def isOptimalMin (R : ConvexRegion) (c q : List ℚ) : Prop :=
  feasible R q ∧ ∀ p, feasible R p → dot c q ≤ dot c p

/-- The interpolation parameters `np.append(np.arange(0, 1, .05), 1)`:
twenty values `i * 0.05` for `i = 0, …, 19`, then the appended endpoint `1`. -/
def tList : List ℚ := ((List.range 20).map fun i : ℕ => (i : ℚ) / 20) ++ [1]

/-- One interpolated configuration `qs = t * q_next + (1 - t) * q`. -/
def interp (t : ℚ) (q qnext : List ℚ) : List ℚ :=
  List.zipWith (fun a b => t * b + (1 - t) * a) q qnext

/-- All configurations one loop iteration publishes, in order. -/
def stepWaypoints (q qnext : List ℚ) : List (List ℚ) :=
  tList.map fun t => interp t q qnext

/-- Outcome of `Solve(prog)`, observed by the loop through
`result.is_success()` and `result.GetSolution(qvar)`. -/
structure SolveResult where
  success : Bool
  solution : List ℚ
deriving DecidableEq

/-- The single failure mode of the stepping path: the statement
`assert result.is_success()` of the loop aborts the step when the solver does not report
success. -/
inductive StepError where
  | infeasibleOrUnbounded
deriving DecidableEq

/-- Walker initialization, line `q = region.ChebyshevCenter()` of the source:
the current configuration is set to the precomputed interior point of the region
unconditionally; the source performs no validation there and cannot fail. -/
def initWalker (R : ConvexRegion) : WalkerState := ⟨R.interior⟩

/-- Error kind of the `Initialize` of the spec; the source raises no such error. -/
inductive InitError where
  | invalidRegion
deriving DecidableEq

/-- Initializer following the words of the spec, for comparison with `initWalker`:
per the spec, `Initialize` fails with `InvalidRegionError` when the region has
zero inequalities or the interior point does not satisfy all inequalities. -/
def initPerSpec (R : ConvexRegion) : Except InitError WalkerState :=
  if R.A.length = 0 ∨ ¬ feasible R R.interior then .error .invalidRegion
  else .ok ⟨R.interior⟩

/-- The body of one loop iteration after the direction was drawn and the
solver ran: `assert result.is_success()` (modelled as the error), then the 21
published waypoints, then the update `q = q_next`.  Nothing in the body writes
to the region, so the region is returned as it was read. -/
def step (R : ConvexRegion) (st : WalkerState) (res : SolveResult) :
    Except StepError (WalkerState × ConvexRegion × List (List ℚ)) :=
  if res.success then
    .ok (⟨res.solution⟩, R, stepWaypoints st.q_current res.solution)
  else
    .error .infeasibleOrUnbounded

/-- The animation loop of `AnimateIris`.  `stop k` is the state of the
"Stop Animation" button when `k` steps have completed (checked at the `while`
head, before each iteration); `dirs k` is the `k`-th drawn direction;
`solve R c` is the deterministic solver on the constraints of the region with
cost coefficients `c`; `notebook` is `running_as_notebook` (when false, the
final `break` of the body bounds the loop to its first iteration); `fuel` bounds the
recursion of the otherwise unbounded loop.  Returns the published waypoints in
order, the final state and region, and the abort error if the assertion
fired. -/
def run (fuel : Nat) (notebook : Bool) (stop : Nat → Bool)
    (solve : ConvexRegion → List ℚ → SolveResult) (dirs : Nat → List ℚ)
    (k : Nat) (st : WalkerState) (R : ConvexRegion) :
    List (List ℚ) × WalkerState × ConvexRegion × Option StepError :=
  match fuel with
  | 0 => ([], st, R, none)
  | fuel + 1 =>
    if stop k then ([], st, R, none)
    else
      match step R st (solve R (dirs k)) with
      | .error e => ([], st, R, some e)
      | .ok (st1, R1, ws) =>
        if notebook then
          let rest := run fuel notebook stop solve dirs (k + 1) st1 R1
          (ws ++ rest.1, rest.2)
        else
          (ws, st1, R1, none)

/-- Waypoints of a sequence of completed steps with the given successive
targets, threading the update `q := q_next` between steps. -/
def chainWaypoints : List ℚ → List (List ℚ) → List (List ℚ)
  | _, [] => []
  | q, t :: ts => stepWaypoints q t ++ chainWaypoints t ts

/-- The unit square `|q₁| ≤ 1, |q₂| ≤ 1` with interior point `(0, 0)`, the
example region of the spec. -/
def unitSquare : ConvexRegion :=
  ⟨[[1, 0], [-1, 0], [0, 1], [0, -1]], [1, 1, 1, 1], [0, 0]⟩

/-- A region with zero inequalities (and interior point `0`). -/
def emptyRegion : ConvexRegion := ⟨[], [], [0]⟩

theorem interp_zero (q t : List ℚ) (h : q.length = t.length) : interp 0 q t = q := by
  induction q generalizing t with
  | nil => simp [interp]
  | cons a l ih =>
    cases t with
    | nil => simp at h
    | cons b m =>
      simp [interp] at ih ⊢
      exact ih m (by simpa using h)

theorem interp_one (q t : List ℚ) (h : q.length = t.length) : interp 1 q t = t := by
  induction q generalizing t with
  | nil =>
    cases t with
    | nil => simp [interp]
    | cons b m => simp at h
  | cons a l ih =>
    cases t with
    | nil => simp at h
    | cons b m =>
      simp [interp] at ih ⊢
      exact ih m (by simpa using h)

theorem dot_interp (c : List ℚ) (x y : List ℚ) (t : ℚ) (h : x.length = y.length) :
    dot c (interp t x y) = t * dot c y + (1 - t) * dot c x := by
  induction c generalizing x y with
  | nil => simp [dot]
  | cons c0 c1 ih =>
    cases x with
    | nil =>
      cases y with
      | nil => simp [dot, interp]
      | cons b m => simp at h
    | cons a l =>
      cases y with
      | nil => simp at h
      | cons b m =>
        have hr := ih l m (by simpa using h)
        simp [dot, interp] at hr ⊢
        rw [hr]
        ring

/-- Convexity of the region: each halfspace is preserved by interpolation. -/
theorem feasible_interp (R : ConvexRegion) (x y : List ℚ) (t : ℚ)
    (h : x.length = y.length) (hx : feasible R x) (hy : feasible R y)
    (h0 : 0 ≤ t) (h1 : t ≤ 1) : feasible R (interp t x y) := by
  intro p hp
  rw [dot_interp p.1 x y t h]
  have hbx := hx p hp
  have hby := hy p hp
  calc t * dot p.1 y + (1 - t) * dot p.1 x
      ≤ t * p.2 + (1 - t) * p.2 :=
        add_le_add (mul_le_mul_of_nonneg_left hby h0)
          (mul_le_mul_of_nonneg_left hbx (by linarith))
    _ = p.2 := by ring

theorem interp_length (t : ℚ) (q qn : List ℚ) (h : q.length = qn.length) :
    (interp t q qn).length = qn.length := by
  simp [interp, h]

theorem tList_length : tList.length = 21 := by decide

theorem stepWaypoints_length (q qn : List ℚ) : (stepWaypoints q qn).length = 21 := by
  simp [stepWaypoints]
  decide

theorem tList_bounds : ∀ t ∈ tList, 0 ≤ t ∧ t ≤ 1 := by
  intro t ht
  rw [tList, List.mem_append] at ht
  rcases ht with hm | hm
  · rw [List.mem_map] at hm
    obtain ⟨i, hi, rfl⟩ := hm
    rw [List.mem_range] at hi
    have h20 : (i : ℚ) ≤ 20 := by exact_mod_cast hi.le
    refine ⟨by positivity, ?_⟩
    rw [div_le_one (by norm_num)]
    exact h20
  · have ht1 : t = 1 := by simpa using hm
    subst ht1
    norm_num

theorem dot_e1 (q : List ℚ) : dot [1, 0] q = q.headD 0 := by
  match q with
  | [] => simp [dot]
  | [a] => simp [dot]
  | a :: b :: m => simp [dot]

theorem dot_neg_e1 (q : List ℚ) : dot [-1, 0] q = -(q.headD 0) := by
  match q with
  | [] => simp [dot]
  | [a] => simp [dot]
  | a :: b :: m => simp [dot]

/-- Either horizontal inequality of the unit square bounds the first
coordinate of a feasible point. -/
theorem unitSquare_feasible_head (q : List ℚ) (h : feasible unitSquare q) :
    -1 ≤ q.headD 0 ∧ q.headD 0 ≤ 1 := by
  have h1 : dot [1, 0] q ≤ 1 := h ([1, 0], 1) (by simp [unitSquare])
  have h2 : dot [-1, 0] q ≤ 1 := h ([-1, 0], 1) (by simp [unitSquare])
  rw [dot_e1] at h1
  rw [dot_neg_e1] at h2
  exact ⟨by linarith, h1⟩

/-- The point `(-1, 0)` minimizes `q₁` over the unit square. -/
theorem unitSquare_optMin_neg : isOptimalMin unitSquare [1, 0] [-1, 0] := by
  refine ⟨by simp [feasible, unitSquare, dot], ?_⟩
  intro p hp
  rw [dot_e1, dot_e1]
  have hb := (unitSquare_feasible_head p hp).1
  exact hb

/-- Any minimizer of `q₁` over the unit square has first coordinate `-1`. -/
theorem unitSquare_optMin_head (q : List ℚ) (h : isOptimalMin unitSquare [1, 0] q) :
    q.headD 0 = -1 := by
  obtain ⟨hf, hopt⟩ := h
  have h1 := hopt [-1, 0] unitSquare_optMin_neg.1
  rw [dot_e1, dot_e1] at h1
  have h1a : q.headD 0 ≤ -1 := h1
  have h2 := (unitSquare_feasible_head q hf).1
  linarith

/-- Constant successful solver used by concrete witnesses. -/
def constSolve : ConvexRegion → List ℚ → SolveResult := fun _ _ => ⟨true, [1, 0]⟩

/-- Constant failing solver used by concrete witnesses. -/
def failSolve : ConvexRegion → List ℚ → SolveResult := fun _ _ => ⟨false, []⟩

/-- Claim C1, counterexample: the claim says the per-step linear program
maximizes `direction · q`, so that on the unit square with sampled direction
`(1, 0)` the target is `(1, 0)`.  The source builds the program with
`AddLinearCost` and `Solve` of Drake, which minimize the cost whose
coefficients are set to `direction`; on the unit square with direction
`(1, 0)` the point `(-1, 0)` is optimal for that minimization and the claimed
target `(1, 0)` is not optimal, so the solver cannot return it. -/
theorem C1_counterexample :
    isOptimalMin unitSquare [1, 0] [-1, 0] ∧ ¬ isOptimalMin unitSquare [1, 0] [1, 0] := by
  refine ⟨unitSquare_optMin_neg, ?_⟩
  intro hopt
  have hh := unitSquare_optMin_head [1, 0] hopt
  have hh1 : (1 : ℚ) = -1 := hh
  norm_num at hh1

/-- Claim C1, amended: the walker solves the linear program minimize
`direction · q` subject to `A·q ≤ b` (Drake minimizes the linear cost whose
coefficients the loop sets to the sampled direction), so the returned target
is the boundary point farthest in the direction opposite to the sampled one;
for the unit square with interior point `(0, 0)` and sampled direction
`(1, 0)`, every optimal target has first coordinate `-1`, i.e. the target is
`(-1, 0)` on the horizontal axis, and the target is feasible. -/
theorem C1_target (res : SolveResult) (st : WalkerState)
    (hs : res.success = true)
    (hopt : isOptimalMin unitSquare [1, 0] res.solution) :
    step unitSquare st res =
      .ok (⟨res.solution⟩, unitSquare, stepWaypoints st.q_current res.solution) ∧
    res.solution.headD 0 = -1 ∧ feasible unitSquare res.solution := by
  refine ⟨by simp [step, hs], unitSquare_optMin_head res.solution hopt, hopt.1⟩

/-- Claim C1, witness: `C1_target` applied to the solver result `(-1, 0)`
from the Chebyshev center `(0, 0)` of the unit square. -/
theorem C1_witness :
    (⟨true, [-1, 0]⟩ : SolveResult).success = true ∧
    isOptimalMin unitSquare [1, 0] (⟨true, [-1, 0]⟩ : SolveResult).solution ∧
    (step unitSquare (initWalker unitSquare) ⟨true, [-1, 0]⟩ =
      .ok (⟨[-1, 0]⟩, unitSquare, stepWaypoints (initWalker unitSquare).q_current [-1, 0]) ∧
    ([-1, 0] : List ℚ).headD 0 = -1 ∧ feasible unitSquare [-1, 0]) :=
  ⟨rfl, unitSquare_optMin_neg,
    C1_target ⟨true, [-1, 0]⟩ (initWalker unitSquare) rfl unitSquare_optMin_neg⟩

/-- Claim C2: for vectors of equal dimension, the emitted waypoint sequence of
one step is exactly the 21 points `t * target + (1 - t) * q_current` for
`t = 0, 0.05, …, 0.95, 1` in that order; the parameter list is strictly
increasing from `0` to `1` inclusive, the endpoint `1` occurs exactly once,
the first waypoint equals `q_current` and the last waypoint equals the
target. -/
theorem C2_waypoints (q t : List ℚ) (h : q.length = t.length) :
    stepWaypoints q t = tList.map (fun s => interp s q t) ∧
    tList = [0, 1/20, 2/20, 3/20, 4/20, 5/20, 6/20, 7/20, 8/20, 9/20, 10/20,
      11/20, 12/20, 13/20, 14/20, 15/20, 16/20, 17/20, 18/20, 19/20, 1] ∧
    List.Chain' (fun a b => a < b) tList ∧
    tList.count 1 = 1 ∧
    (stepWaypoints q t).length = 21 ∧
    (stepWaypoints q t).head? = some q ∧
    (stepWaypoints q t).getLast? = some t := by
  refine ⟨rfl, by simp [tList, List.range_succ], ?_, ?_, stepWaypoints_length q t, ?_, ?_⟩
  · simp [tList, List.range_succ]
    norm_num
  · simp [tList, List.range_succ, List.count_cons]
    norm_num
  · have h1 : tList.head? = some 0 := by simp [tList, List.range_succ]
    rw [stepWaypoints, List.head?_map, h1]
    simp [interp_zero q t h]
  · rw [stepWaypoints, tList, List.map_append]
    simp [interp_one q t h]

/-- Claim C2, witness: `C2_waypoints` on the interpolation from `(0, 0)`
to `(1, 0)` of the example scenario of the spec. -/
theorem C2_witness :
    ([0, 0] : List ℚ).length = ([1, 0] : List ℚ).length ∧
    (stepWaypoints [0, 0] [1, 0] = tList.map (fun s => interp s [0, 0] [1, 0]) ∧
    tList = [0, 1/20, 2/20, 3/20, 4/20, 5/20, 6/20, 7/20, 8/20, 9/20, 10/20,
      11/20, 12/20, 13/20, 14/20, 15/20, 16/20, 17/20, 18/20, 19/20, 1] ∧
    List.Chain' (fun a b => a < b) tList ∧
    tList.count 1 = 1 ∧
    (stepWaypoints [0, 0] [1, 0]).length = 21 ∧
    (stepWaypoints [0, 0] [1, 0]).head? = some [0, 0] ∧
    (stepWaypoints [0, 0] [1, 0]).getLast? = some [1, 0]) :=
  ⟨rfl, C2_waypoints [0, 0] [1, 0] rfl⟩

/-- Claim C3: if the current configuration is feasible and the solver only
reports feasible solutions of the right dimension, then every waypoint the
loop emits is feasible (each is a convex combination of two feasible points,
and every halfspace of the region is preserved by convex combination), and
the current configuration is still feasible after any number of steps: the
feasibility invariant is preserved by every step. -/
theorem C3_feasible (fuel : Nat) (nb : Bool) (stop : Nat → Bool)
    (solve : ConvexRegion → List ℚ → SolveResult) (dirs : Nat → List ℚ)
    (k : Nat) (st : WalkerState) (R : ConvexRegion) (n : Nat)
    (hq : st.q_current.length = n) (hf : feasible R st.q_current)
    (hsol : ∀ d, (solve R d).success = true →
      feasible R (solve R d).solution ∧ (solve R d).solution.length = n) :
    (∀ w ∈ (run fuel nb stop solve dirs k st R).1, feasible R w) ∧
    feasible R (run fuel nb stop solve dirs k st R).2.1.q_current := by
  induction fuel generalizing k st with
  | zero => exact ⟨by simp [run], hf⟩
  | succ m ih =>
    by_cases hstop : stop k
    · refine ⟨by simp [run, hstop], ?_⟩
      simp [run, hstop]
      exact hf
    · cases hsucc : (solve R (dirs k)).success with
      | false =>
        refine ⟨by simp [run, hstop, step, hsucc], ?_⟩
        simp [run, hstop, step, hsucc]
        exact hf
      | true =>
        obtain ⟨hfs, hls⟩ := hsol (dirs k) hsucc
        have hwp : ∀ w ∈ stepWaypoints st.q_current (solve R (dirs k)).solution,
            feasible R w := by
          intro w hw
          rw [stepWaypoints, List.mem_map] at hw
          obtain ⟨t, ht, rfl⟩ := hw
          obtain ⟨h0, h1⟩ := tList_bounds t ht
          exact feasible_interp R _ _ t (by rw [hq, hls]) hf hfs h0 h1
        cases nb with
        | false =>
          refine ⟨?_, ?_⟩
          · simp only [run, hstop, step, hsucc]
            simp only [if_true, if_neg (by simp [hstop] : ¬ stop k = true)]
            exact hwp
          · simp [run, hstop, step, hsucc]
            exact hfs
        | true =>
          have ihh := ih (k + 1) ⟨(solve R (dirs k)).solution⟩ hls hfs
          refine ⟨?_, ?_⟩
          · intro w hw
            simp [run, hstop, step, hsucc] at hw
            rcases hw with h | h
            · exact hwp w (by simpa [stepWaypoints] using h)
            · exact ihh.1 w h
          · simp [run, hstop, step, hsucc]
            exact ihh.2

/-- Claim C3, witness: `C3_feasible` on the unit square from `(0, 0)` with a
solver that always returns the feasible point `(1, 0)`. -/
theorem C3_witness :
    ((⟨[0, 0]⟩ : WalkerState).q_current.length = 2 ∧
      feasible unitSquare (⟨[0, 0]⟩ : WalkerState).q_current ∧
      (∀ d, (constSolve unitSquare d).success = true →
        feasible unitSquare (constSolve unitSquare d).solution ∧
        (constSolve unitSquare d).solution.length = 2)) ∧
    ((∀ w ∈ (run 2 true (fun _ => false) constSolve (fun _ => [1, 0]) 0
        ⟨[0, 0]⟩ unitSquare).1, feasible unitSquare w) ∧
      feasible unitSquare (run 2 true (fun _ => false) constSolve (fun _ => [1, 0]) 0
        ⟨[0, 0]⟩ unitSquare).2.1.q_current) := by
  have hf : feasible unitSquare [0, 0] := by simp [feasible, unitSquare, dot]
  have hsol : ∀ d, (constSolve unitSquare d).success = true →
      feasible unitSquare (constSolve unitSquare d).solution ∧
      (constSolve unitSquare d).solution.length = 2 :=
    fun d _ => ⟨by simp [feasible, unitSquare, dot, constSolve], rfl⟩
  exact ⟨⟨rfl, hf, hsol⟩,
    C3_feasible 2 true (fun _ => false) constSolve (fun _ => [1, 0]) 0
      ⟨[0, 0]⟩ unitSquare 2 rfl hf hsol⟩

/-- Claim C4, counterexample: the claim says initialization fails with
`InvalidRegionError` exactly when the region has zero inequalities or the
interior point is infeasible.  The source performs no validation at
`q = region.ChebyshevCenter()` and has no failure path there: on a region
with zero inequalities, the spec-worded initializer fails but the embedded
source initializer returns a normal state. -/
theorem C4_counterexample :
    emptyRegion.A.length = 0 ∧
    initPerSpec emptyRegion = .error .invalidRegion ∧
    initWalker emptyRegion = ⟨[0]⟩ := by
  refine ⟨rfl, ?_, rfl⟩
  simp [initPerSpec, emptyRegion]

/-- Claim C4, amended: initialization never fails; it unconditionally sets
`q_current` to the precomputed interior point of the region with no
validation, and whenever that interior point is feasible (as it is for every
valid region), `q_current` satisfies every inequality immediately after
initialization. -/
theorem C4_init (R : ConvexRegion) :
    (initWalker R).q_current = R.interior ∧
    (feasible R R.interior → feasible R (initWalker R).q_current) :=
  ⟨rfl, fun h => h⟩

/-- Claim C4, witness: `C4_init` on the unit square, whose interior point
`(0, 0)` is feasible. -/
theorem C4_witness :
    feasible unitSquare unitSquare.interior ∧
    feasible unitSquare (initWalker unitSquare).q_current :=
  ⟨by simp [feasible, unitSquare, dot],
    (C4_init unitSquare).2 (by simp [feasible, unitSquare, dot])⟩

/-- Claim C5: when the loop is about to step (the stop button is unclicked)
and the solver does not report success, the run aborts immediately with
`infeasibleOrUnbounded` (the `assert result.is_success()` of the source),
emitting no waypoint of that step, leaving the state and region unchanged and
performing no retry; moreover a step can fail in no other way: every error a
step ever returns is `infeasibleOrUnbounded` and arises only from a solver
result without success. -/
theorem C5_abort (fuel : Nat) (nb : Bool) (stop : Nat → Bool)
    (solve : ConvexRegion → List ℚ → SolveResult) (dirs : Nat → List ℚ)
    (k : Nat) (st : WalkerState) (R : ConvexRegion)
    (hstop : stop k = false)
    (hfail : (solve R (dirs k)).success = false) :
    run (fuel + 1) nb stop solve dirs k st R = ([], st, R, some .infeasibleOrUnbounded) ∧
    ∀ (st1 : WalkerState) (res : SolveResult) (e : StepError),
      step R st1 res = .error e → res.success = false ∧ e = .infeasibleOrUnbounded := by
  constructor
  · simp [run, hstop, step, hfail]
  · intro st1 res e hstep
    cases hres : res.success with
    | false =>
      refine ⟨rfl, ?_⟩
      cases e
      rfl
    | true =>
      rw [step] at hstep
      simp [hres] at hstep

/-- Claim C5, witness: `C5_abort` with a solver that reports failure. -/
theorem C5_witness :
    (failSolve unitSquare [1, 0]).success = false ∧
    (run 1 true (fun _ => false) failSolve (fun _ => [1, 0]) 0 ⟨[0, 0]⟩ unitSquare =
        ([], ⟨[0, 0]⟩, unitSquare, some .infeasibleOrUnbounded) ∧
      ∀ (st1 : WalkerState) (res : SolveResult) (e : StepError),
        step unitSquare st1 res = .error e →
          res.success = false ∧ e = .infeasibleOrUnbounded) :=
  ⟨rfl, C5_abort 0 true (fun _ => false) failSolve (fun _ => [1, 0]) 0
    ⟨[0, 0]⟩ unitSquare rfl rfl⟩

/-- Claim C6: if the stop predicate is already true when the loop is entered,
the run performs zero steps and emits zero waypoints, leaving state and region
untouched and reporting no error; and its result does not depend on the
solver or on the direction stream, i.e. no direction is consumed and no
linear program is solved. -/
theorem C6_stop (fuel : Nat) (nb : Bool) (stop : Nat → Bool)
    (solve : ConvexRegion → List ℚ → SolveResult) (dirs : Nat → List ℚ)
    (k : Nat) (st : WalkerState) (R : ConvexRegion)
    (h : stop k = true) :
    run fuel nb stop solve dirs k st R = ([], st, R, none) ∧
    ∀ (solve1 : ConvexRegion → List ℚ → SolveResult) (dirs1 : Nat → List ℚ),
      run fuel nb stop solve1 dirs1 k st R = ([], st, R, none) := by
  refine ⟨?_, fun solve1 dirs1 => ?_⟩ <;> cases fuel <;> simp [run, h]

/-- Claim C6, witness: `C6_stop` with the stop predicate constantly true. -/
theorem C6_witness :
    ((fun _ : Nat => true) 0 = true) ∧
    (run 5 true (fun _ => true) constSolve (fun _ => [1, 0]) 0 ⟨[0, 0]⟩ unitSquare =
        ([], ⟨[0, 0]⟩, unitSquare, none) ∧
      ∀ (solve1 : ConvexRegion → List ℚ → SolveResult) (dirs1 : Nat → List ℚ),
        run 5 true (fun _ => true) solve1 dirs1 0 ⟨[0, 0]⟩ unitSquare =
          ([], ⟨[0, 0]⟩, unitSquare, none)) :=
  ⟨rfl, C6_stop 5 true (fun _ => true) constSolve (fun _ => [1, 0]) 0
    ⟨[0, 0]⟩ unitSquare rfl⟩

/-- Claim C7: the stop predicate is consulted only at step boundaries and a
started step always runs to completion: every emitted waypoint sequence is a
concatenation of complete 21-waypoint blocks, one block per completed step,
with the current configuration threaded from block to block (`q := q_next`
happens before the stop predicate is checked again), and the final
configuration is the last target of the chain; no block is ever emitted
partially. -/
theorem C7_complete (fuel : Nat) (nb : Bool) (stop : Nat → Bool)
    (solve : ConvexRegion → List ℚ → SolveResult) (dirs : Nat → List ℚ)
    (k : Nat) (st : WalkerState) (R : ConvexRegion) :
    ∃ targets : List (List ℚ),
      (run fuel nb stop solve dirs k st R).1 = chainWaypoints st.q_current targets ∧
      (run fuel nb stop solve dirs k st R).1.length = 21 * targets.length ∧
      (run fuel nb stop solve dirs k st R).2.1.q_current = targets.getLastD st.q_current := by
  induction fuel generalizing k st with
  | zero => exact ⟨[], by simp [run, chainWaypoints]⟩
  | succ m ih =>
    by_cases hstop : stop k
    · exact ⟨[], by simp [run, hstop, chainWaypoints]⟩
    · cases hsucc : (solve R (dirs k)).success with
      | false => exact ⟨[], by simp [run, hstop, step, hsucc, chainWaypoints]⟩
      | true =>
        cases nb with
        | false =>
          refine ⟨[(solve R (dirs k)).solution], ?_, ?_, ?_⟩
          · simp [run, hstop, step, hsucc, chainWaypoints]
          · simp [run, hstop, step, hsucc, chainWaypoints, stepWaypoints_length]
          · simp [run, hstop, step, hsucc]
        | true =>
          obtain ⟨ts, h1, h2, h3⟩ := ih (k + 1) ⟨(solve R (dirs k)).solution⟩
          refine ⟨(solve R (dirs k)).solution :: ts, ?_, ?_, ?_⟩
          · simp [run, hstop, step, hsucc, chainWaypoints]
            exact h1
          · simp [run, hstop, step, hsucc, stepWaypoints_length, h2]
            ring
          · have hrun : (run (m + 1) true stop solve dirs k st R).2.1 =
                (run m true stop solve dirs (k + 1)
                  ⟨(solve R (dirs k)).solution⟩ R).2.1 := by
              simp [run, hstop, step, hsucc]
            rw [hrun, List.getLastD_cons]
            exact h3

/-- Claim C8: the walker is deterministic: two runs with extensionally equal
stop predicates, solvers and direction streams, from the same state and
region for the same fuel, produce identical results, in particular identical
waypoint sequences. -/
theorem C8_deterministic (fuel : Nat) (nb : Bool)
    (stop1 stop2 : Nat → Bool)
    (solve1 solve2 : ConvexRegion → List ℚ → SolveResult)
    (dirs1 dirs2 : Nat → List ℚ)
    (k : Nat) (st : WalkerState) (R : ConvexRegion)
    (hstop : ∀ i, stop1 i = stop2 i)
    (hsol : ∀ S c, solve1 S c = solve2 S c)
    (hdir : ∀ i, dirs1 i = dirs2 i) :
    run fuel nb stop1 solve1 dirs1 k st R = run fuel nb stop2 solve2 dirs2 k st R := by
  induction fuel generalizing k st R with
  | zero => rfl
  | succ m ih =>
    rw [run, run, hstop k, hdir k, hsol R]
    by_cases h : stop2 k
    · simp [h]
    · simp only [h, if_false, Bool.false_eq_true]
      cases hstep : step R st (solve2 R (dirs2 k)) with
      | error e => rfl
      | ok out =>
        obtain ⟨st1, R1, ws⟩ := out
        cases nb with
        | false => rfl
        | true =>
          simp only []
          rw [ih (k + 1) st1 R1]

/-- Claim C8, witness: `C8_deterministic` on two textually identical runs. -/
theorem C8_witness :
    (∀ i : Nat, (fun _ : Nat => false) i = (fun _ : Nat => false) i) ∧
    (∀ (S : ConvexRegion) (c : List ℚ), constSolve S c = constSolve S c) ∧
    (∀ i : Nat, (fun _ : Nat => [1, 0]) i = (fun _ : Nat => [1, 0]) i) ∧
    run 3 true (fun _ => false) constSolve (fun _ => [1, 0]) 0 ⟨[0, 0]⟩ unitSquare =
      run 3 true (fun _ => false) constSolve (fun _ => [1, 0]) 0 ⟨[0, 0]⟩ unitSquare :=
  ⟨fun _ => rfl, fun _ _ => rfl, fun _ => rfl,
    C8_deterministic 3 true (fun _ => false) (fun _ => false) constSolve constSolve
      (fun _ => [1, 0]) (fun _ => [1, 0]) 0 ⟨[0, 0]⟩ unitSquare
      (fun _ => rfl) (fun _ _ => rfl) (fun _ => rfl)⟩

/-- Claim C9: the region is never mutated: the region a run returns is the
region it was given (so its inequality matrix, bound vector and interior
point are unchanged by initialization, by any step and by the whole run), and
the only change a completed step makes to the walker state is the update
`q_current := target`. -/
theorem C9_frame (fuel : Nat) (nb : Bool) (stop : Nat → Bool)
    (solve : ConvexRegion → List ℚ → SolveResult) (dirs : Nat → List ℚ)
    (k : Nat) (st : WalkerState) (R : ConvexRegion) :
    (run fuel nb stop solve dirs k st R).2.2.1 = R ∧
    ∀ (st1 : WalkerState) (res : SolveResult), res.success = true →
      step R st1 res = .ok (⟨res.solution⟩, R, stepWaypoints st1.q_current res.solution) := by
  constructor
  · induction fuel generalizing k st with
    | zero => rfl
    | succ m ih =>
      by_cases hstop : stop k
      · simp [run, hstop]
      · cases hsucc : (solve R (dirs k)).success with
        | false => simp [run, hstop, step, hsucc]
        | true =>
          cases nb with
          | false => simp [run, hstop, step, hsucc]
          | true =>
            simp [run, hstop, step, hsucc]
            exact ih (k + 1) ⟨(solve R (dirs k)).solution⟩
  · intro st1 res h
    simp [step, h]

/-- Claim C9, witness: `C9_frame` instantiated on the unit square, with the
successful-step conjunct applied to a concrete solver result. -/
theorem C9_witness :
    ((⟨true, [1, 0]⟩ : SolveResult).success = true) ∧
    step unitSquare ⟨[0, 0]⟩ ⟨true, [1, 0]⟩ =
      .ok (⟨[1, 0]⟩, unitSquare, stepWaypoints [0, 0] [1, 0]) :=
  ⟨rfl, (C9_frame 1 true (fun _ => false) constSolve (fun _ => [1, 0]) 0
    ⟨[0, 0]⟩ unitSquare).2 ⟨[0, 0]⟩ ⟨true, [1, 0]⟩ rfl⟩

/-- Claim C10, counterexample: the claim says that with
`running_as_notebook = false` the loop performs exactly one step regardless of
the stop predicate.  The `while` condition is still checked before the first
iteration: with the stop predicate already true at entry the loop performs
zero steps and emits zero waypoints, not one step of 21 waypoints. -/
theorem C10_counterexample :
    (run 3 false (fun _ => true) constSolve (fun _ => [1, 0]) 0
      ⟨[0, 0]⟩ unitSquare).1 = [] ∧
    (run 3 false (fun _ => true) constSolve (fun _ => [1, 0]) 0
      ⟨[0, 0]⟩ unitSquare).1.length ≠ 21 := by
  refine ⟨rfl, ?_⟩
  simp [run]

/-- Claim C10, amended: with `running_as_notebook = false`, if the stop
predicate is false at entry and the solve of that iteration succeeds, the
loop performs exactly one step — one direction, one solve, one full
21-waypoint interpolation — and returns, regardless of the remaining fuel and
of the stop predicate at later step counts; with the stop predicate already
true at entry it performs zero steps. -/
theorem C10_single (fuel : Nat) (stop : Nat → Bool)
    (solve : ConvexRegion → List ℚ → SolveResult) (dirs : Nat → List ℚ)
    (k : Nat) (st : WalkerState) (R : ConvexRegion)
    (hstop : stop k = false) (hs : (solve R (dirs k)).success = true) :
    run (fuel + 1) false stop solve dirs k st R =
      (stepWaypoints st.q_current (solve R (dirs k)).solution,
        ⟨(solve R (dirs k)).solution⟩, R, none) ∧
    (run (fuel + 1) false stop solve dirs k st R).1.length = 21 := by
  constructor
  · simp [run, hstop, step, hs]
  · simp [run, hstop, step, hs, stepWaypoints_length]

/-- Claim C10, witness: `C10_single` on a concrete run bounded to one
iteration. -/
theorem C10_witness :
    ((fun _ : Nat => false) 0 = false) ∧
    ((constSolve unitSquare [1, 0]).success = true) ∧
    (run 4 false (fun _ => false) constSolve (fun _ => [1, 0]) 0 ⟨[0, 0]⟩ unitSquare =
        (stepWaypoints [0, 0] [1, 0], ⟨[1, 0]⟩, unitSquare, none) ∧
      (run 4 false (fun _ => false) constSolve (fun _ => [1, 0]) 0
        ⟨[0, 0]⟩ unitSquare).1.length = 21) :=
  ⟨rfl, rfl, C10_single 3 (fun _ => false) constSolve (fun _ => [1, 0]) 0
    ⟨[0, 0]⟩ unitSquare rfl rfl⟩
